import Mathlib

/-!
Verification of the asynchronous extraction-job orchestrator of
`langextract-api` against its natural-language specification.

Each section shallowly embeds one Python module of the repository
(`app/services/consensus_model.py`, `app/services/extraction_cache.py`,
`app/core/security.py`, `app/services/webhook.py`,
`app/services/extractor.py`, `app/workers/batch_task.py`,
`app/api/routes/extract.py`) as executable Lean definitions and proves
the specified properties about them.

Modelling conventions:
* Python `str` is modelled by Lean `String`; byte strings by `List Nat`.
* Python `float` arithmetic on small rationals (Jaccard ratios,
  agreement scores) is modelled by exact `ℚ` arithmetic.
* Python standard-library primitives that live outside the repository
  (`hashlib.sha256`, `json.dumps`, `hmac`) are kept as explicit function
  parameters of the embedded definitions.
-/

set_option autoImplicit false

namespace LangextractApi

/-! Module `app/services/consensus_model.py` -/

/-- Python `\s` whitespace class restricted to the ASCII characters the
regex module always matches (space, tab, newline, carriage return,
vertical tab, form feed). -/
def isPySpace (c : Char) : Bool :=
  c = ' ' || c = '\t' || c = '\n' || c = '\r' || c = '\x0b' || c = '\x0c'

/-- Python `str.lower()` (ASCII case mapping). -/
def pyLower (s : String) : String :=
  String.mk (s.data.map Char.toLower)

/-- Python `str.strip()`: drop leading and trailing whitespace. -/
def pyStrip (s : String) : String :=
  String.mk (((s.data.dropWhile isPySpace).reverse.dropWhile isPySpace).reverse)

/-- One step of `_WHITESPACE_RE.sub(" ", ·)`: replace every maximal run
of whitespace characters by a single space. -/
def collapseWs : List Char → List Char
  | [] => []
  | [c] => [if isPySpace c then ' ' else c]
  | c :: c' :: cs =>
    if isPySpace c && isPySpace c' then collapseWs (c' :: cs)
    else (if isPySpace c then ' ' else c) :: collapseWs (c' :: cs)

/-- Python `_normalise_text`: lowercase, strip, collapse whitespace runs to a
single space (`_WHITESPACE_RE.sub(" ", text.lower().strip())`). -/
def _normalise_text (text : String) : String :=
  String.mk (collapseWs (pyStrip (pyLower text)).data)

/-- Helper for Python `str.split()` with no separator: accumulate the
current word (reversed) and emit words at whitespace boundaries. -/
def pySplitAux : List Char → List Char → List String
  | [], acc => if acc.isEmpty then [] else [String.mk acc.reverse]
  | c :: cs, acc =>
    if isPySpace c then
      if acc.isEmpty then pySplitAux cs []
      else String.mk acc.reverse :: pySplitAux cs []
    else pySplitAux cs (c :: acc)

/-- Python `str.split()` with no separator: split on whitespace runs,
dropping empty tokens. -/
def pySplit (s : String) : List String :=
  pySplitAux s.data []

/-- Python `_word_set`: the set of word tokens of the normalised text
(`set(_normalise_text(text).split())`). -/
def _word_set (text : String) : Finset String :=
  (pySplit (_normalise_text text)).toFinset

/-- Python `_jaccard_similarity`: word-set Jaccard similarity of two strings,
`1.0` when both word sets are empty. -/
def _jaccard_similarity (a b : String) : ℚ :=
  let words_a := _word_set a
  let words_b := _word_set b
  if words_a = ∅ ∧ words_b = ∅ then 1
  else
    let union := words_a ∪ words_b
    if union = ∅ then 1
    else ((words_a ∩ words_b).card : ℚ) / (union.card : ℚ)

/-- Default similarity threshold (`_DEFAULT_SIMILARITY_THRESHOLD`). -/
def _DEFAULT_SIMILARITY_THRESHOLD : ℚ := 6 / 10

/-- Agreement count of candidate `i` in the outer loop of
`_select_consensus_output`: `1` (itself) plus the number of other positions `j` whose
output has Jaccard similarity `≥ threshold` with output `i`. -/
def agreementCount (outputs : List String) (threshold : ℚ) (i : Nat) : Nat :=
  1 + ((List.range outputs.length).filter (fun j =>
        j ≠ i && _jaccard_similarity (outputs.getD i "") (outputs.getD j "") ≥ threshold)).length

/-- The `best_idx` / `best_agreement` selection loop of
`_select_consensus_output`: starting from `(0, 0)`, a candidate replaces
the incumbent only when its agreement count is strictly larger. -/
def selectLoop (outputs : List String) (threshold : ℚ) : Nat × Nat :=
  (List.range outputs.length).foldl
    (fun best i =>
      let agreement := agreementCount outputs threshold i
      if best.2 < agreement then (i, agreement) else best)
    (0, 0)

/-- Python `_select_consensus_output(outputs, threshold)`: empty input yields
`("", 0.0)`; a single candidate wins with score `1.0`; otherwise the
candidate with the highest agreement count (earliest index on ties)
wins with score `best_agreement / n`. -/
def _select_consensus_output (outputs : List String) (threshold : ℚ) : String × ℚ :=
  if outputs = [] then ("", 0)
  else
    let n := outputs.length
    if n = 1 then (outputs.getD 0 "", 1)
    else
      let best := selectLoop outputs threshold
      (outputs.getD best.1 "", (best.2 : ℚ) / (n : ℚ))

/-! Section: Lemmas about consensus selection -/

theorem jaccard_self (x : String) : _jaccard_similarity x x = 1 := by
  unfold _jaccard_similarity
  by_cases h : _word_set x = ∅
  · simp [h]
  · rw [if_neg (by tauto)]
    rw [Finset.union_self, Finset.inter_self, if_neg h]
    apply div_self
    exact_mod_cast fun hc => h (Finset.card_eq_zero.mp hc)

theorem getD_all_eq {outputs : List String} {c : String}
    (hall : ∀ x ∈ outputs, x = c) {i : Nat} (hi : i < outputs.length) :
    outputs.getD i "" = c := by
  rw [List.getD_eq_getElem _ _ hi]
  exact hall _ (List.getElem_mem hi)

theorem one_le_agreementCount (outputs : List String) (t : ℚ) (i : Nat) :
    1 ≤ agreementCount outputs t i := by
  unfold agreementCount
  omega

theorem length_filter_ne_range (n i : Nat) (hi : i < n) :
    ((List.range n).filter (fun j => decide (j ≠ i))).length = n - 1 := by
  induction n with
  | zero => omega
  | succ n ih =>
    rw [List.range_succ, List.filter_append, List.length_append]
    by_cases h : n = i
    · subst h
      have h1 : (List.range n).filter (fun j => decide (j ≠ n)) = List.range n := by
        rw [List.filter_eq_self]
        intro j hj
        have := List.mem_range.mp hj
        simp
        omega
      have h2 : ([n].filter (fun j => decide (j ≠ n))) = [] := by simp
      rw [h1, h2]
      simp
    · have hi' : i < n := by omega
      have h2 : ([n].filter (fun j => decide (j ≠ i))) = [n] := by
        simp
        omega
      rw [ih hi', h2]
      simp
      omega

theorem agreementCount_of_all_eq (outputs : List String) (t : ℚ) (c : String)
    (hall : ∀ x ∈ outputs, x = c) (ht : t ≤ 1) (i : Nat) (hi : i < outputs.length) :
    agreementCount outputs t i = outputs.length := by
  unfold agreementCount
  have hfilter : ((List.range outputs.length).filter (fun j =>
      j ≠ i && _jaccard_similarity (outputs.getD i "") (outputs.getD j "") ≥ t))
      = (List.range outputs.length).filter (fun j => decide (j ≠ i)) := by
    apply List.filter_congr
    intro j hj
    have hj' : j < outputs.length := List.mem_range.mp hj
    rw [getD_all_eq hall hi, getD_all_eq hall hj', jaccard_self c]
    have hdec : decide ((1 : ℚ) ≥ t) = true := decide_eq_true ht
    rw [hdec, Bool.and_true]
  rw [hfilter, length_filter_ne_range _ _ hi]
  omega

theorem agreementCount_of_no_pair (outputs : List String) (t : ℚ)
    (hno : ∀ i j, i < outputs.length → j < outputs.length → i ≠ j →
      _jaccard_similarity (outputs.getD i "") (outputs.getD j "") < t)
    (i : Nat) (hi : i < outputs.length) :
    agreementCount outputs t i = 1 := by
  unfold agreementCount
  have hfilter : ((List.range outputs.length).filter (fun j =>
      j ≠ i && _jaccard_similarity (outputs.getD i "") (outputs.getD j "") ≥ t)) = [] := by
    rw [List.filter_eq_nil_iff]
    intro j hj
    have hj' : j < outputs.length := List.mem_range.mp hj
    by_cases hji : j = i
    · simp [hji]
    · have := hno i j hi hj' (fun h => hji h.symm)
      simp only [Bool.and_eq_true, decide_eq_true_eq, ge_iff_le, not_and]
      intro _
      exact not_le.mpr this
  rw [hfilter]
  rfl

/-- Generic characterisation of the strict-improvement argmax fold used by
`selectLoop`: starting from `(0, 0)` over `List.range n`. -/
def argmaxFold (A : Nat → Nat) (n : Nat) : Nat × Nat :=
  (List.range n).foldl (fun best i => if best.2 < A i then (i, A i) else best) (0, 0)

theorem argmaxFold_spec (A : Nat → Nat) (hA : ∀ i, 1 ≤ A i) (n : Nat) (hn : 1 ≤ n) :
    (argmaxFold A n).1 < n ∧ (argmaxFold A n).2 = A (argmaxFold A n).1 ∧
    (∀ j, j < n → A j ≤ (argmaxFold A n).2) ∧
    (∀ j, j < (argmaxFold A n).1 → A j < (argmaxFold A n).2) := by
  induction n with
  | zero => omega
  | succ n ih =>
    have hstep : argmaxFold A (n + 1) =
        (if (argmaxFold A n).2 < A n then (n, A n) else argmaxFold A n) := by
      unfold argmaxFold
      rw [List.range_succ, List.foldl_append, List.foldl_cons, List.foldl_nil]
    by_cases h0 : n = 0
    · subst h0
      have h1 : (0 : Nat) < A 0 := hA 0
      have hbase : argmaxFold A 0 = (0, 0) := rfl
      rw [hstep, hbase, if_pos h1]
      refine ⟨Nat.zero_lt_one, rfl, ?_, ?_⟩
      · intro j hj
        have : j = 0 := by omega
        subst this
        exact Nat.le_refl _
      · intro j hj
        omega
    · have hn' : 1 ≤ n := by omega
      obtain ⟨h1, h2, h3, h4⟩ := ih hn'
      by_cases hcmp : (argmaxFold A n).2 < A n
      · rw [hstep, if_pos hcmp]
        refine ⟨Nat.lt_succ_self n, rfl, ?_, ?_⟩
        · intro j hj
          rcases Nat.lt_succ_iff_lt_or_eq.mp hj with h | h
          · exact Nat.le_of_lt (Nat.lt_of_le_of_lt (h3 j h) hcmp)
          · subst h
            exact Nat.le_refl _
        · intro j hj
          exact Nat.lt_of_le_of_lt (h3 j hj) hcmp
      · rw [hstep, if_neg hcmp]
        refine ⟨Nat.lt_succ_of_lt h1, h2, ?_, h4⟩
        intro j hj
        rcases Nat.lt_succ_iff_lt_or_eq.mp hj with h | h
        · exact h3 j h
        · subst h
          exact Nat.le_of_not_lt hcmp

theorem selectLoop_eq_argmaxFold (outputs : List String) (t : ℚ) :
    selectLoop outputs t = argmaxFold (agreementCount outputs t) outputs.length := rfl

theorem select_eq_of_len_ne_one (outputs : List String) (t : ℚ)
    (hne : outputs ≠ []) (h1 : outputs.length ≠ 1) :
    _select_consensus_output outputs t =
      (outputs.getD (argmaxFold (agreementCount outputs t) outputs.length).1 "",
       ((argmaxFold (agreementCount outputs t) outputs.length).2 : ℚ) / (outputs.length : ℚ)) := by
  simp only [_select_consensus_output, selectLoop_eq_argmaxFold]
  rw [if_neg hne, if_neg h1]

theorem select_eq_of_len_one (outputs : List String) (t : ℚ)
    (hne : outputs ≠ []) (h1 : outputs.length = 1) :
    _select_consensus_output outputs t = (outputs.getD 0 "", 1) := by
  simp only [_select_consensus_output]
  rw [if_neg hne, if_pos h1]

theorem agreementCount_zero_of_len_one (outputs : List String) (t : ℚ)
    (h1 : outputs.length = 1) : agreementCount outputs t 0 = 1 := by
  unfold agreementCount
  rw [h1, show List.range 1 = [0] from rfl]
  simp

/-- C2: for every candidate list and threshold, `_select_consensus_output`
satisfies: a single candidate is selected with score `1.0`; if all
candidates are identical (and the threshold is a valid similarity, i.e.
`≤ 1`) that text wins with score `1.0`; if no two distinct candidates
reach the threshold the first candidate wins with score `1/N`; an empty
candidate list yields `("", 0.0)`; and in general the winner is the
candidate with the maximal agreement count, ties broken in favour of the
earliest index. -/
theorem select_consensus_output_spec (outputs : List String) (t : ℚ) (c : String) :
    (∀ o, outputs = [o] → _select_consensus_output outputs t = (o, 1)) ∧
    (outputs ≠ [] → t ≤ 1 → (∀ x ∈ outputs, x = c) →
      _select_consensus_output outputs t = (c, 1)) ∧
    ((∀ i j, i < outputs.length → j < outputs.length → i ≠ j →
        _jaccard_similarity (outputs.getD i "") (outputs.getD j "") < t) →
      outputs ≠ [] →
      _select_consensus_output outputs t = (outputs.getD 0 "", 1 / (outputs.length : ℚ))) ∧
    (outputs = [] → _select_consensus_output outputs t = ("", 0)) ∧
    (outputs ≠ [] → ∃ i, i < outputs.length ∧
      _select_consensus_output outputs t =
        (outputs.getD i "", (agreementCount outputs t i : ℚ) / (outputs.length : ℚ)) ∧
      (∀ j, j < outputs.length → agreementCount outputs t j ≤ agreementCount outputs t i) ∧
      (∀ j, j < i → agreementCount outputs t j < agreementCount outputs t i)) := by
  refine ⟨?_, ?_, ?_, ?_, ?_⟩
  · intro o h
    subst h
    rfl
  · intro hne ht hall
    have hn : 1 ≤ outputs.length := List.length_pos.mpr hne
    by_cases h1 : outputs.length = 1
    · rw [select_eq_of_len_one outputs t hne h1, getD_all_eq hall (by omega)]
    · rw [select_eq_of_len_ne_one outputs t hne h1]
      obtain ⟨hb1, hb2, _, _⟩ :=
        argmaxFold_spec (agreementCount outputs t) (one_le_agreementCount outputs t)
          outputs.length hn
      rw [getD_all_eq hall hb1, hb2,
        agreementCount_of_all_eq outputs t c hall ht _ hb1]
      rw [div_self (by exact_mod_cast (by omega : outputs.length ≠ 0))]
  · intro hno hne
    have hn : 1 ≤ outputs.length := List.length_pos.mpr hne
    by_cases h1 : outputs.length = 1
    · rw [select_eq_of_len_one outputs t hne h1, h1]
      norm_num
    · rw [select_eq_of_len_ne_one outputs t hne h1]
      obtain ⟨hb1, hb2, _, hb4⟩ :=
        argmaxFold_spec (agreementCount outputs t) (one_le_agreementCount outputs t)
          outputs.length hn
      have hbA : agreementCount outputs t (argmaxFold (agreementCount outputs t)
          outputs.length).1 = 1 := agreementCount_of_no_pair outputs t hno _ hb1
      have hzero : (argmaxFold (agreementCount outputs t) outputs.length).1 = 0 := by
        by_contra hnz
        have h0lt : 0 < (argmaxFold (agreementCount outputs t) outputs.length).1 :=
          Nat.pos_of_ne_zero hnz
        have := hb4 0 h0lt
        rw [hb2, hbA] at this
        have hA0 : agreementCount outputs t 0 = 1 :=
          agreementCount_of_no_pair outputs t hno 0 (by omega)
        omega
      rw [hb2, hzero, agreementCount_of_no_pair outputs t hno 0 (by omega)]
      norm_num
  · intro h
    subst h
    rfl
  · intro hne
    have hn : 1 ≤ outputs.length := List.length_pos.mpr hne
    by_cases h1 : outputs.length = 1
    · refine ⟨0, by omega, ?_, ?_, ?_⟩
      · rw [select_eq_of_len_one outputs t hne h1,
          agreementCount_zero_of_len_one outputs t h1, h1]
        norm_num
      · intro j hj
        have : j = 0 := by omega
        subst this
        exact Nat.le_refl _
      · intro j hj
        omega
    · obtain ⟨hb1, hb2, hb3, hb4⟩ :=
        argmaxFold_spec (agreementCount outputs t) (one_le_agreementCount outputs t)
          outputs.length hn
      refine ⟨(argmaxFold (agreementCount outputs t) outputs.length).1, hb1, ?_, ?_, ?_⟩
      · rw [select_eq_of_len_ne_one outputs t hne h1, hb2]
      · intro j hj
        have := hb3 j hj
        omega
      · intro j hj
        have := hb4 j hj
        omega

/-- Witness for `select_consensus_output_spec`: three identical outputs at
the default threshold are selected with score `1.0`. -/
theorem select_consensus_output_spec_witness :
    _select_consensus_output ["a b c", "a b c", "a b c"] (6 / 10) = ("a b c", 1) :=
  (select_consensus_output_spec ["a b c", "a b c", "a b c"] (6 / 10) "a b c").2.1
    (by decide) (by norm_num) (by decide)

/-- C10: when both strings normalise to an empty word set (empty or
whitespace-only text) their Jaccard similarity is `1.0`, which reaches
any threshold not exceeding `1.0`. -/
theorem jaccard_of_empty_word_sets (a b : String) (t : ℚ)
    (ha : _word_set a = ∅) (hb : _word_set b = ∅) :
    _jaccard_similarity a b = 1 ∧ (t ≤ 1 → t ≤ _jaccard_similarity a b) := by
  have h : _jaccard_similarity a b = 1 := by
    unfold _jaccard_similarity
    rw [if_pos ⟨ha, hb⟩]
  exact ⟨h, fun ht => h ▸ ht⟩

/-- Witness for `jaccard_of_empty_word_sets`: a whitespace-only string and
the empty string agree with similarity `1.0` at the default threshold. -/
theorem jaccard_of_empty_word_sets_witness :
    _jaccard_similarity " \t " "" = 1 ∧
      ((6 : ℚ) / 10 ≤ 1 → (6 : ℚ) / 10 ≤ _jaccard_similarity " \t " "") :=
  jaccard_of_empty_word_sets " \t " "" (6 / 10) (by decide) (by decide)

/-! Section `ConsensusLanguageModel.infer` / `.async_infer`

The behaviour of a provider model on a fixed prompt batch is represented by
`Option (List (List ScoredOutput))`: `none` when the provider raised (the
wrapper logs and skips it), otherwise its per-prompt result sequences. -/

/-- Python `langextract` `ScoredOutput`: an inference output with its score. -/
structure ScoredOutput where
  score : ℚ
  output : String
deriving DecidableEq, Repr

/-- The provider-collection loop of `ConsensusLanguageModel.infer`: each
model is invoked in turn inside `try`, appending its result list on
success and skipping the provider on any exception. -/
def infer_collect (modelResults : List (Option (List (List ScoredOutput)))) :
    List (List (List ScoredOutput)) :=
  modelResults.foldl
    (fun acc r =>
      match r with
      | some mr => acc ++ [mr]
      | none => acc)
    []

/-- The provider-collection step of `ConsensusLanguageModel.async_infer`:
`asyncio.gather` preserves provider order and the comprehension drops the
`None` entries produced by `_safe_infer` on failure. -/
def async_infer_collect (modelResults : List (Option (List (List ScoredOutput)))) :
    List (List (List ScoredOutput)) :=
  modelResults.filterMap id

/-- Candidate gathering for one prompt position (identical lines in
`infer` and `async_infer`): take the first scored output of each
successful provider that has an entry for this prompt. -/
def prompt_candidates (all : List (List (List ScoredOutput))) (promptIdx : Nat) :
    List String :=
  all.foldl
    (fun acc modelResults =>
      if promptIdx < modelResults.length then
        match modelResults.getD promptIdx [] with
        | [] => acc
        | scored :: _ => acc ++ [scored.output]
      else acc)
    []

/-- Python `ConsensusLanguageModel.infer` (synchronous path): per-prompt
consensus selection over the outputs collected from all providers,
yielded prompt by prompt. -/
def ConsensusLanguageModel_infer (modelResults : List (Option (List (List ScoredOutput))))
    (nPrompts : Nat) (threshold : ℚ) : List (List ScoredOutput) :=
  let all := infer_collect modelResults
  if all.isEmpty then
    (List.range nPrompts).map (fun _ => [⟨0, ""⟩])
  else
    (List.range nPrompts).map (fun promptIdx =>
      let chosen := _select_consensus_output (prompt_candidates all promptIdx) threshold
      [⟨chosen.2, chosen.1⟩])

/-- Python `ConsensusLanguageModel.async_infer` (asynchronous path): concurrent
dispatch via `asyncio.gather`, then the same per-prompt consensus
selection, accumulated into `consensus_results`. -/
def ConsensusLanguageModel_async_infer
    (modelResults : List (Option (List (List ScoredOutput))))
    (nPrompts : Nat) (threshold : ℚ) : List (List ScoredOutput) :=
  let all := async_infer_collect modelResults
  if all.isEmpty then
    (List.range nPrompts).map (fun _ => [⟨0, ""⟩])
  else
    (List.range nPrompts).foldl
      (fun acc promptIdx =>
        let chosen := _select_consensus_output (prompt_candidates all promptIdx) threshold
        acc ++ [[⟨chosen.2, chosen.1⟩]])
      []

theorem infer_collect_eq_filterMap
    (modelResults : List (Option (List (List ScoredOutput)))) :
    infer_collect modelResults = modelResults.filterMap id := by
  have hgen : ∀ (l : List (Option (List (List ScoredOutput))))
      (acc : List (List (List ScoredOutput))),
      l.foldl
        (fun acc r =>
          match r with
          | some mr => acc ++ [mr]
          | none => acc)
        acc = acc ++ l.filterMap id := by
    intro l
    induction l with
    | nil => intro acc; simp
    | cons r rest ih =>
      intro acc
      cases r with
      | some mr => simp [List.filterMap_cons, ih]
      | none => simp [List.filterMap_cons, ih]
  exact hgen modelResults []

theorem foldl_append_singleton_eq_map {α β : Type} (f : α → β) (l : List α) :
    l.foldl (fun acc i => acc ++ [f i]) [] = l.map f := by
  have hgen : ∀ (l : List α) (acc : List β),
      l.foldl (fun acc i => acc ++ [f i]) acc = acc ++ l.map f := by
    intro l
    induction l with
    | nil => intro acc; simp
    | cons x rest ih => intro acc; simp [ih]
  exact hgen l []

/-- C9: for identical per-provider results and the same threshold, the
synchronous (`infer`) and asynchronous (`async_infer`) consensus paths
produce the same selected output and the same agreement score at every
prompt position. -/
theorem infer_eq_async_infer (modelResults : List (Option (List (List ScoredOutput))))
    (nPrompts : Nat) (threshold : ℚ) :
    ConsensusLanguageModel_infer modelResults nPrompts threshold =
      ConsensusLanguageModel_async_infer modelResults nPrompts threshold := by
  unfold ConsensusLanguageModel_infer ConsensusLanguageModel_async_infer
  rw [infer_collect_eq_filterMap]
  unfold async_infer_collect
  by_cases h : (modelResults.filterMap id).isEmpty
  · rw [if_pos h, if_pos h]
  · rw [if_neg h, if_neg h, foldl_append_singleton_eq_map]

/-! Module `app/services/extraction_cache.py` — `build_cache_key`

External standard-library primitives are explicit parameters: `sha256hex`
stands for `hashlib.sha256(...).hexdigest()` on UTF-8 input and
`stable_json_providers` for `_stable_json` (a `json.dumps` wrapper with
sorted keys and compact separators) applied to a list of provider id
strings.  The Python `str()` of the validated non-negative `passes` count
is embedded concretely as `pyStrNat`. -/

/-- Python `_TEXT_HASH_THRESHOLD`: texts longer than this are hashed before
entering the key preimage. -/
def _TEXT_HASH_THRESHOLD : Nat := 50000

/-- Python `sep.join(parts)`. -/
def pyJoin (sep : String) : List String → String
  | [] => ""
  | [p] => p
  | p :: q :: rest => p ++ sep ++ pyJoin sep (q :: rest)

/-- Python `sorted(...)` on a list of strings (lexicographic order on
code points). -/
def pySortedStr (l : List String) : List String :=
  l.mergeSort (fun a b => a ≤ b)

/-- Decimal digit characters. -/
def digitChar (d : Nat) : Char :=
  match d with
  | 0 => '0' | 1 => '1' | 2 => '2' | 3 => '3' | 4 => '4'
  | 5 => '5' | 6 => '6' | 7 => '7' | 8 => '8' | _ => '9'

/-- Value of a decimal digit character. -/
def digitVal (c : Char) : Nat :=
  match c with
  | '0' => 0 | '1' => 1 | '2' => 2 | '3' => 3 | '4' => 4
  | '5' => 5 | '6' => 6 | '7' => 7 | '8' => 8 | '9' => 9
  | _ => 0

/-- Fuelled most-significant-first decimal digit expansion. -/
def natDigitsCore : Nat → Nat → List Char
  | 0, _ => []
  | fuel + 1, n =>
    if n < 10 then [digitChar n]
    else natDigitsCore fuel (n / 10) ++ [digitChar (n % 10)]

/-- Decimal digits of `n`, most significant first. -/
def natDigits (n : Nat) : List Char := natDigitsCore (n + 1) n

/-- Python `str()` of a non-negative int. -/
def pyStrNat (n : Nat) : String := String.mk (natDigits n)

/-- The suffix that `build_cache_key` appends to the six base parts when
a (truthy, i.e. non-empty) consensus provider list is supplied. -/
def consensusSuffix (stable_json_providers : List String → String)
    (consensus_providers : Option (List String))
    (consensus_threshold_str : String) : List String :=
  match consensus_providers with
  | none => []
  | some ps =>
    if ps = [] then []
    else [stable_json_providers (pySortedStr ps), consensus_threshold_str]

/-- Python `build_cache_key` up to the final SHA-256 application: the
NUL-joined preimage of every parameter affecting the extraction output.
`temperature_str` and `consensus_threshold_str` are the Python `str()`
forms of the float-or-None fields; `examples_json` is the canonical
`_stable_json` serialisation of the few-shot examples. -/
def build_cache_key_preimage (sha256hex : String → String)
    (stable_json_providers : List String → String)
    (text prompt_description examples_json model_id temperature_str : String)
    (passes : Nat) (consensus_providers : Option (List String))
    (consensus_threshold_str : String) : String :=
  let text_component :=
    if _TEXT_HASH_THRESHOLD < text.length then sha256hex text else text
  let parts : List String :=
    [text_component, prompt_description, examples_json, model_id, temperature_str,
      pyStrNat passes]
  let parts2 :=
    match consensus_providers with
    | none => parts
    | some ps =>
      if ps = [] then parts
      else parts ++ [stable_json_providers (pySortedStr ps), consensus_threshold_str]
  pyJoin "\x00" parts2

/-- Python `build_cache_key`: the SHA-256 hex digest of the joined preimage. -/
def build_cache_key (sha256hex : String → String)
    (stable_json_providers : List String → String)
    (text prompt_description examples_json model_id temperature_str : String)
    (passes : Nat) (consensus_providers : Option (List String))
    (consensus_threshold_str : String) : String :=
  sha256hex (build_cache_key_preimage sha256hex stable_json_providers
    text prompt_description examples_json model_id temperature_str
    passes consensus_providers consensus_threshold_str)

/-! Section: Lemmas about the cache key -/

theorem string_append_left_cancel {a b c : String} (h : a ++ b = a ++ c) : b = c := by
  apply String.ext
  have hd : a.data ++ b.data = a.data ++ c.data := by
    rw [← String.data_append, ← String.data_append, h]
  exact List.append_cancel_left hd

theorem string_append_right_cancel {a b c : String} (h : a ++ c = b ++ c) : a = b := by
  apply String.ext
  have hd : a.data ++ c.data = b.data ++ c.data := by
    rw [← String.data_append, ← String.data_append, h]
  exact List.append_cancel_right hd

theorem pyJoin_cons_of_ne_nil (sep p : String) {l : List String} (hl : l ≠ []) :
    pyJoin sep (p :: l) = p ++ sep ++ pyJoin sep l := by
  cases l with
  | nil => exact absurd rfl hl
  | cons q qs => rfl

theorem pyJoin_ne_of_single_diff (sep : String) (pre : List String) (post : List String)
    {x y : String} (hxy : x ≠ y) :
    pyJoin sep (pre ++ x :: post) ≠ pyJoin sep (pre ++ y :: post) := by
  induction pre with
  | nil =>
    cases post with
    | nil => simpa [pyJoin] using hxy
    | cons q qs =>
      intro h
      rw [List.nil_append, List.nil_append,
        pyJoin_cons_of_ne_nil sep x (by simp),
        pyJoin_cons_of_ne_nil sep y (by simp)] at h
      exact hxy (string_append_right_cancel (string_append_right_cancel h))
  | cons p pre ih =>
    intro h
    rw [List.cons_append, List.cons_append,
      pyJoin_cons_of_ne_nil sep p (by simp),
      pyJoin_cons_of_ne_nil sep p (by simp)] at h
    exact ih (string_append_left_cancel h)

theorem pyJoin_length_append_two (sep : String) {l : List String} (hl : l ≠ [])
    (a b : String) :
    (pyJoin sep (l ++ [a, b])).length =
      (pyJoin sep l).length + 2 * sep.length + a.length + b.length := by
  induction l with
  | nil => exact absurd rfl hl
  | cons p rest ih =>
    cases rest with
    | nil =>
      show (pyJoin sep [p, a, b]).length = _
      simp only [pyJoin, String.length_append]
      ring
    | cons q qs =>
      rw [List.cons_append,
        pyJoin_cons_of_ne_nil sep p (by simp),
        pyJoin_cons_of_ne_nil sep p (show (q :: qs : List String) ≠ [] by simp)]
      rw [String.length_append, String.length_append, String.length_append,
        String.length_append, ih (by simp)]
      ring

theorem pyJoin_ne_append_two (sep : String) (hsep : sep.length ≠ 0) {l : List String}
    (hl : l ≠ []) (a b : String) :
    pyJoin sep l ≠ pyJoin sep (l ++ [a, b]) := by
  intro h
  have hlen := congrArg String.length h
  rw [pyJoin_length_append_two sep hl a b] at hlen
  omega

theorem pySortedStr_sorted (l : List String) :
    List.Sorted (fun a b : String => a ≤ b) (pySortedStr l) :=
  List.sorted_mergeSort' l

theorem pySortedStr_perm_eq {l₁ l₂ : List String} (h : l₁.Perm l₂) :
    pySortedStr l₁ = pySortedStr l₂ :=
  List.eq_of_perm_of_sorted
    (((List.mergeSort_perm l₁ _).trans h).trans (List.mergeSort_perm l₂ _).symm)
    (pySortedStr_sorted l₁) (pySortedStr_sorted l₂)

theorem digitVal_digitChar {d : Nat} (hd : d < 10) : digitVal (digitChar d) = d := by
  interval_cases d <;> rfl

/-- Decimal value of a digit string, with accumulator. -/
def decValAux (a : Nat) (l : List Char) : Nat :=
  l.foldl (fun acc c => 10 * acc + digitVal c) a

theorem decValAux_natDigitsCore :
    ∀ (fuel n a : Nat), n < fuel →
      decValAux a (natDigitsCore fuel n) =
        a * 10 ^ (natDigitsCore fuel n).length + n := by
  intro fuel
  induction fuel with
  | zero => omega
  | succ fuel ih =>
    intro n a hn
    by_cases h10 : n < 10
    · simp only [natDigitsCore, if_pos h10]
      simp [decValAux, digitVal_digitChar h10]
      ring
    · simp only [natDigitsCore, if_neg h10]
      have hdiv : n / 10 < fuel := by
        have h1 : n / 10 < n := Nat.div_lt_self (by omega) (by omega)
        omega
      rw [decValAux, List.foldl_append]
      have hrec := ih (n / 10) a hdiv
      rw [show (natDigitsCore fuel (n / 10)).foldl (fun acc c => 10 * acc + digitVal c) a
          = decValAux a (natDigitsCore fuel (n / 10)) from rfl, hrec]
      simp only [List.foldl_cons, List.foldl_nil, List.length_append, List.length_cons,
        List.length_nil]
      rw [digitVal_digitChar (Nat.mod_lt n (by omega))]
      have hmod := Nat.div_add_mod n 10
      rw [pow_succ]
      ring_nf
      omega

theorem pyStrNat_injective : Function.Injective pyStrNat := by
  intro m n h
  have hd : natDigits m = natDigits n := congrArg String.data h
  have hm := decValAux_natDigitsCore (m + 1) m 0 (by omega)
  have hn := decValAux_natDigitsCore (n + 1) n 0 (by omega)
  unfold natDigits at hd
  rw [hd] at hm
  omega

theorem build_cache_key_preimage_eq (sha256hex : String → String)
    (stable_json_providers : List String → String)
    (text prompt_description examples_json model_id temperature_str : String)
    (passes : Nat) (consensus_providers : Option (List String))
    (consensus_threshold_str : String) :
    build_cache_key_preimage sha256hex stable_json_providers text prompt_description
        examples_json model_id temperature_str passes consensus_providers
        consensus_threshold_str =
      pyJoin "\x00"
        ([(if _TEXT_HASH_THRESHOLD < text.length then sha256hex text else text),
          prompt_description, examples_json, model_id, temperature_str,
          pyStrNat passes] ++
          consensusSuffix stable_json_providers consensus_providers
            consensus_threshold_str) := by
  unfold build_cache_key_preimage consensusSuffix
  cases consensus_providers with
  | none => simp
  | some ps =>
    by_cases hps : ps = []
    · simp [hps]
    · simp [hps]

/-- C1 (amended): for any injective hash, `build_cache_key` is stable
across repeated calls on a fixed tuple; changing any single field of
(text, prompt, examples serialisation, model id, temperature, passes,
provider set serialisation, threshold-with-providers, consensus
configured or not) yields a different key, where the text change keeps
both texts on the same side of the hashing threshold; and permuting the
consensus provider list yields the same key.  The consensus threshold is
only included in the key when a non-empty provider list is supplied. -/
theorem build_cache_key_spec (sha : String → String) (dumps : List String → String)
    (hsha : Function.Injective sha) :
    (∀ t p e m tm ps cp ct,
      build_cache_key sha dumps t p e m tm ps cp ct =
        build_cache_key sha dumps t p e m tm ps cp ct) ∧
    (∀ t p e m tm ps l₁ l₂ ct, l₁.Perm l₂ →
      build_cache_key sha dumps t p e m tm ps (some l₁) ct =
        build_cache_key sha dumps t p e m tm ps (some l₂) ct) ∧
    (∀ t₁ t₂ p e m tm ps cp ct, t₁ ≠ t₂ →
      ((t₁.length ≤ _TEXT_HASH_THRESHOLD ∧ t₂.length ≤ _TEXT_HASH_THRESHOLD) ∨
        (_TEXT_HASH_THRESHOLD < t₁.length ∧ _TEXT_HASH_THRESHOLD < t₂.length)) →
      build_cache_key sha dumps t₁ p e m tm ps cp ct ≠
        build_cache_key sha dumps t₂ p e m tm ps cp ct) ∧
    (∀ t p₁ p₂ e m tm ps cp ct, p₁ ≠ p₂ →
      build_cache_key sha dumps t p₁ e m tm ps cp ct ≠
        build_cache_key sha dumps t p₂ e m tm ps cp ct) ∧
    (∀ t p e₁ e₂ m tm ps cp ct, e₁ ≠ e₂ →
      build_cache_key sha dumps t p e₁ m tm ps cp ct ≠
        build_cache_key sha dumps t p e₂ m tm ps cp ct) ∧
    (∀ t p e m₁ m₂ tm ps cp ct, m₁ ≠ m₂ →
      build_cache_key sha dumps t p e m₁ tm ps cp ct ≠
        build_cache_key sha dumps t p e m₂ tm ps cp ct) ∧
    (∀ t p e m tm₁ tm₂ ps cp ct, tm₁ ≠ tm₂ →
      build_cache_key sha dumps t p e m tm₁ ps cp ct ≠
        build_cache_key sha dumps t p e m tm₂ ps cp ct) ∧
    (∀ t p e m tm ps₁ ps₂ cp ct, ps₁ ≠ ps₂ →
      build_cache_key sha dumps t p e m tm ps₁ cp ct ≠
        build_cache_key sha dumps t p e m tm ps₂ cp ct) ∧
    (∀ t p e m tm ps l₁ l₂ ct, l₁ ≠ [] → l₂ ≠ [] →
      dumps (pySortedStr l₁) ≠ dumps (pySortedStr l₂) →
      build_cache_key sha dumps t p e m tm ps (some l₁) ct ≠
        build_cache_key sha dumps t p e m tm ps (some l₂) ct) ∧
    (∀ t p e m tm ps l ct₁ ct₂, l ≠ [] → ct₁ ≠ ct₂ →
      build_cache_key sha dumps t p e m tm ps (some l) ct₁ ≠
        build_cache_key sha dumps t p e m tm ps (some l) ct₂) ∧
    (∀ t p e m tm ps l ct₁ ct₂, l ≠ [] →
      build_cache_key sha dumps t p e m tm ps none ct₁ ≠
        build_cache_key sha dumps t p e m tm ps (some l) ct₂) := by
  refine ⟨fun _ _ _ _ _ _ _ _ => rfl, ?_, ?_, ?_, ?_, ?_, ?_, ?_, ?_, ?_, ?_⟩
  · intro t p e m tm ps l₁ l₂ ct h
    have hsuf : consensusSuffix dumps (some l₁) ct = consensusSuffix dumps (some l₂) ct := by
      simp only [consensusSuffix]
      by_cases h1 : l₁ = []
      · have h2 : l₂ = [] := by
          subst h1
          exact h.symm.eq_nil
        rw [h1, h2]
      · have h2 : l₂ ≠ [] := by
          intro hc
          rw [hc] at h
          exact h1 h.eq_nil
        rw [if_neg h1, if_neg h2, pySortedStr_perm_eq h]
    unfold build_cache_key
    rw [build_cache_key_preimage_eq, build_cache_key_preimage_eq, hsuf]
  · intro t₁ t₂ p e m tm ps cp ct hne hside hkey
    have hpre : build_cache_key_preimage sha dumps t₁ p e m tm ps cp ct =
        build_cache_key_preimage sha dumps t₂ p e m tm ps cp ct := hsha hkey
    rw [build_cache_key_preimage_eq, build_cache_key_preimage_eq] at hpre
    rcases hside with ⟨h1, h2⟩ | ⟨h1, h2⟩
    · rw [if_neg (not_lt.mpr h1), if_neg (not_lt.mpr h2)] at hpre
      exact pyJoin_ne_of_single_diff "\x00" []
        (p :: e :: m :: tm :: pyStrNat ps :: consensusSuffix dumps cp ct) hne hpre
    · rw [if_pos h1, if_pos h2] at hpre
      exact pyJoin_ne_of_single_diff "\x00" []
        (p :: e :: m :: tm :: pyStrNat ps :: consensusSuffix dumps cp ct)
        (hsha.ne hne) hpre
  · intro t p₁ p₂ e m tm ps cp ct hne hkey
    have hpre := hsha hkey
    rw [build_cache_key_preimage_eq, build_cache_key_preimage_eq] at hpre
    exact pyJoin_ne_of_single_diff "\x00"
      [if _TEXT_HASH_THRESHOLD < t.length then sha t else t]
      (e :: m :: tm :: pyStrNat ps :: consensusSuffix dumps cp ct) hne hpre
  · intro t p e₁ e₂ m tm ps cp ct hne hkey
    have hpre := hsha hkey
    rw [build_cache_key_preimage_eq, build_cache_key_preimage_eq] at hpre
    exact pyJoin_ne_of_single_diff "\x00"
      [if _TEXT_HASH_THRESHOLD < t.length then sha t else t, p]
      (m :: tm :: pyStrNat ps :: consensusSuffix dumps cp ct) hne hpre
  · intro t p e m₁ m₂ tm ps cp ct hne hkey
    have hpre := hsha hkey
    rw [build_cache_key_preimage_eq, build_cache_key_preimage_eq] at hpre
    exact pyJoin_ne_of_single_diff "\x00"
      [if _TEXT_HASH_THRESHOLD < t.length then sha t else t, p, e]
      (tm :: pyStrNat ps :: consensusSuffix dumps cp ct) hne hpre
  · intro t p e m tm₁ tm₂ ps cp ct hne hkey
    have hpre := hsha hkey
    rw [build_cache_key_preimage_eq, build_cache_key_preimage_eq] at hpre
    exact pyJoin_ne_of_single_diff "\x00"
      [if _TEXT_HASH_THRESHOLD < t.length then sha t else t, p, e, m]
      (pyStrNat ps :: consensusSuffix dumps cp ct) hne hpre
  · intro t p e m tm ps₁ ps₂ cp ct hne hkey
    have hpre := hsha hkey
    rw [build_cache_key_preimage_eq, build_cache_key_preimage_eq] at hpre
    exact pyJoin_ne_of_single_diff "\x00"
      [if _TEXT_HASH_THRESHOLD < t.length then sha t else t, p, e, m, tm]
      (consensusSuffix dumps cp ct)
      (fun hc => hne (pyStrNat_injective hc)) hpre
  · intro t p e m tm ps l₁ l₂ ct h1 h2 hdumps hkey
    have hpre := hsha hkey
    rw [build_cache_key_preimage_eq, build_cache_key_preimage_eq] at hpre
    simp only [consensusSuffix] at hpre
    rw [if_neg h1, if_neg h2] at hpre
    exact pyJoin_ne_of_single_diff "\x00"
      [if _TEXT_HASH_THRESHOLD < t.length then sha t else t, p, e, m, tm, pyStrNat ps]
      [ct] hdumps hpre
  · intro t p e m tm ps l ct₁ ct₂ hl hne hkey
    have hpre := hsha hkey
    rw [build_cache_key_preimage_eq, build_cache_key_preimage_eq] at hpre
    simp only [consensusSuffix] at hpre
    rw [if_neg hl, if_neg hl] at hpre
    exact pyJoin_ne_of_single_diff "\x00"
      [if _TEXT_HASH_THRESHOLD < t.length then sha t else t, p, e, m, tm, pyStrNat ps,
        dumps (pySortedStr l)]
      [] hne hpre
  · intro t p e m tm ps l ct₁ ct₂ hl hkey
    have hpre := hsha hkey
    rw [build_cache_key_preimage_eq, build_cache_key_preimage_eq] at hpre
    simp only [consensusSuffix] at hpre
    rw [if_neg hl, List.append_nil] at hpre
    exact pyJoin_ne_append_two "\x00" (by decide)
      (by simp : ([if _TEXT_HASH_THRESHOLD < t.length then sha t else t, p, e, m, tm,
        pyStrNat ps] : List String) ≠ [])
      (dumps (pySortedStr l)) ct₂ hpre

/-- Counterexample to C1 as stated: with no consensus providers the
consensus threshold is not part of the key, so changing only the
threshold field leaves the key (indeed the whole hash preimage)
unchanged.  The hash argument is irrelevant because the preimages
coincide, so it is instantiated with `id`. -/
theorem build_cache_key_threshold_counterexample :
    build_cache_key id (fun l => pyJoin "," l) "doc" "prompt" "[]" "gpt-4o" "None" 1
        none "0.5" =
      build_cache_key id (fun l => pyJoin "," l) "doc" "prompt" "[]" "gpt-4o" "None" 1
        none "0.9" ∧
    "0.5" ≠ "0.9" ∧
    build_cache_key_preimage id (fun l => pyJoin "," l) "doc" "prompt" "[]" "gpt-4o"
        "None" 1 none "0.5" =
      build_cache_key_preimage id (fun l => pyJoin "," l) "doc" "prompt" "[]" "gpt-4o"
        "None" 1 none "0.9" :=
  ⟨rfl, by decide, rfl⟩

/-- Witness for `build_cache_key_spec`: changing only the prompt changes
the key (hash instantiated with the injective `id`). -/
theorem build_cache_key_spec_witness :
    build_cache_key id (fun l => pyJoin "," l) "doc" "p1" "[]" "gpt-4o" "None" 1
        none "None" ≠
      build_cache_key id (fun l => pyJoin "," l) "doc" "p2" "[]" "gpt-4o" "None" 1
        none "None" :=
  (build_cache_key_spec id (fun l => pyJoin "," l)
      Function.injective_id).2.2.2.1
    "doc" "p1" "p2" "[]" "gpt-4o" "None" 1 none "None" (by decide)

/-! Module `app/core/security.py` — `compute_webhook_signature` and
`app/services/webhook.py` — `fire_webhook`

Byte strings are modelled as `List Nat`; `hmac.new(secret, msg,
hashlib.sha256).hexdigest()` is the explicit parameter
`hmac_sha256_hex` (standard library, outside the repository).  Python
dicts with string keys are modelled as insertion-ordered association
lists with the usual replace-on-existing-key update semantics. -/

/-- UTF-8 encoding of one character. -/
def utf8Char (c : Char) : List Nat :=
  let v := c.toNat
  if v < 128 then [v]
  else if v < 2048 then [192 + v / 64, 128 + v % 64]
  else if v < 65536 then [224 + v / 4096, 128 + (v / 64) % 64, 128 + v % 64]
  else [240 + v / 262144, 128 + (v / 4096) % 64, 128 + (v / 64) % 64, 128 + v % 64]

/-- Python `str.encode()` (UTF-8 bytes). -/
def pyEncode (s : String) : List Nat :=
  s.data.flatMap utf8Char

theorem pyEncode_append (a b : String) : pyEncode (a ++ b) = pyEncode a ++ pyEncode b := by
  unfold pyEncode
  rw [String.data_append, List.flatMap_append]

/-- Python `compute_webhook_signature(payload_bytes, secret, timestamp=...)`:
HMAC-SHA256 of `f"{timestamp}.".encode() + payload_bytes` keyed by the
encoded secret, returned together with the timestamp. -/
def compute_webhook_signature (hmac_sha256_hex : List Nat → List Nat → String)
    (payload_bytes : List Nat) (secret : String) (timestamp : Nat) : String × Nat :=
  let message := pyEncode (pyStrNat timestamp ++ ".") ++ payload_bytes
  (hmac_sha256_hex (pyEncode secret) message, timestamp)

/-- Modelled from the spec: the reference signature
`HMAC_SHA256(secret, "{ts}." + body)` — the decimal unix timestamp,
a dot, then the raw JSON body bytes, keyed by the shared secret. -/
def spec_webhook_signature (hmac_sha256_hex : List Nat → List Nat → String)
    (body : List Nat) (secret : String) (ts : Nat) : String :=
  hmac_sha256_hex (pyEncode secret) (pyEncode (pyStrNat ts) ++ pyEncode "." ++ body)

/-- Python dict insertion: replace the value of an existing key in
place, otherwise append the pair. -/
def pyDictInsert (d : List (String × String)) (k v : String) : List (String × String) :=
  if d.any (fun p => p.1 = k) then d.map (fun p => if p.1 = k then (k, v) else p)
  else d ++ [(k, v)]

/-- Python `{**a, **b}`: insert the entries of `b` into `a` in order. -/
def pyDictMerge (a b : List (String × String)) : List (String × String) :=
  b.foldl (fun d p => pyDictInsert d p.1 p.2) a

/-- Python dict lookup (first, hence unique, matching key). -/
def pyDictGet (d : List (String × String)) (k : String) : Option String :=
  (d.find? (fun p => p.1 = k)).map (fun p => p.2)

/-- The header dict of the outgoing request in `fire_webhook`: the
`Content-Type` entry, then the signature headers when a webhook secret
is configured (Python truthiness: the empty string counts as
unconfigured), then the caller-supplied extra headers, merged with
Python dict-unpacking semantics. -/
def fire_webhook_headers (hmac_sha256_hex : List Nat → List Nat → String)
    (webhook_secret : String) (payload_json : List Nat) (now : Nat)
    (extra_headers : List (String × String)) : List (String × String) :=
  let headers : List (String × String) :=
    if webhook_secret ≠ "" then
      [("X-Webhook-Signature",
          (compute_webhook_signature hmac_sha256_hex payload_json webhook_secret now).1),
        ("X-Webhook-Timestamp",
          pyStrNat (compute_webhook_signature hmac_sha256_hex payload_json webhook_secret
            now).2)]
    else []
  pyDictMerge (pyDictMerge [("Content-Type", "application/json")] headers) extra_headers

/-- C5: with a configured secret, the computed signature is exactly
HMAC-SHA256 of the decimal unix timestamp, a dot, and the raw JSON body
bytes, keyed by the secret (the spec-side reference formula); the same
timestamp is returned and attached in the timestamp header alongside the
signature header; and the computation is a pure function of its inputs. -/
theorem compute_webhook_signature_spec (hmac : List Nat → List Nat → String)
    (body : List Nat) (secret : String) (ts : Nat) :
    (compute_webhook_signature hmac body secret ts).1 =
      spec_webhook_signature hmac body secret ts ∧
    (compute_webhook_signature hmac body secret ts).2 = ts ∧
    (secret ≠ "" →
      pyDictGet (fire_webhook_headers hmac secret body ts []) "X-Webhook-Signature" =
        some (spec_webhook_signature hmac body secret ts) ∧
      pyDictGet (fire_webhook_headers hmac secret body ts []) "X-Webhook-Timestamp" =
        some (pyStrNat ts)) := by
  have hmsg : (compute_webhook_signature hmac body secret ts).1 =
      spec_webhook_signature hmac body secret ts := by
    unfold compute_webhook_signature spec_webhook_signature
    rw [pyEncode_append]
  refine ⟨hmsg, rfl, fun hsec => ?_⟩
  simp only [fire_webhook_headers]
  rw [if_pos hsec]
  exact ⟨by rw [← hmsg]; rfl, rfl⟩

/-- Witness for `compute_webhook_signature_spec` at concrete inputs. -/
theorem compute_webhook_signature_spec_witness :
    pyDictGet (fire_webhook_headers (fun _ _ => "sig") "s" [123] 5 [])
        "X-Webhook-Signature" =
      some (spec_webhook_signature (fun _ _ => "sig") [123] "s" 5) :=
  ((compute_webhook_signature_spec (fun _ _ => "sig") [123] "s" 5).2.2 (by decide)).1

/-- C4 failing input: because `fire_webhook` merges the caller-supplied
extra headers after the computed ones, a caller entry named
`X-Webhook-Signature` or `Content-Type` replaces the value computed by
the notifier, contradicting the never-overridden property. -/
theorem fire_webhook_headers_overridden_by_extra :
    pyDictGet (fire_webhook_headers (fun _ _ => "computed") "secret" [] 0
        [("X-Webhook-Signature", "forged"), ("Content-Type", "text/plain")])
      "X-Webhook-Signature" = some "forged" ∧
    pyDictGet (fire_webhook_headers (fun _ _ => "computed") "secret" [] 0
        [("X-Webhook-Signature", "forged"), ("Content-Type", "text/plain")])
      "Content-Type" = some "text/plain" ∧
    (compute_webhook_signature (fun _ _ => "computed") [] "secret" 0).1 = "computed" ∧
    "forged" ≠ "computed" :=
  ⟨rfl, rfl, rfl, by decide⟩

/-! Module `app/services/extractor.py` — `_run_lx_extract_with_retry` -/

/-- Outcome of one `lx.extract()` invocation: success, a `ValueError`
(structurally invalid model output), or an exception of any other
class. -/
inductive LxOutcome (α : Type) where
  | ok (a : α)
  | valueError (e : String)
  | otherError (e : String)
deriving DecidableEq, Repr

/-- Python `MAX_LLM_RETRIES`: extra immediate retries after the first attempt. -/
def MAX_LLM_RETRIES : Nat := 2

/-- Semantics of the `tenacity` decorator configuration on
`_run_lx_extract_with_retry` — `retry_if_exception_type(ValueError)`,
`stop_after_attempt(MAX_LLM_RETRIES + 1)`, `wait_none()`,
`reraise=True` (the library itself lives outside the repository):
`rem` counts the attempts still allowed after the current one.  A
`ValueError` with retries remaining triggers an immediate re-invocation
with a zero wait; success, any other exception class, or budget
exhaustion ends the run, re-raising the last error.  Returns the final
outcome, the index of the last attempt made, and the list of waits. -/
def tenacityGo {α : Type} (call : Nat → LxOutcome α) : Nat → Nat → LxOutcome α × Nat × List Nat
  | attempt, 0 => (call attempt, attempt, [])
  | attempt, rem + 1 =>
    match call attempt with
    | .ok a => (.ok a, attempt, [])
    | .valueError _ =>
      let rest := tenacityGo call (attempt + 1) rem
      (rest.1, rest.2.1, 0 :: rest.2.2)
    | .otherError e => (.otherError e, attempt, [])

/-- Python `_run_lx_extract_with_retry`: invoke `lx.extract()` (represented by
`call`, indexed by attempt number starting at 1) under the tenacity
policy with `MAX_LLM_RETRIES` extra attempts. -/
def _run_lx_extract_with_retry {α : Type} (call : Nat → LxOutcome α) :
    LxOutcome α × Nat × List Nat :=
  tenacityGo call 1 MAX_LLM_RETRIES

theorem tenacityGo_zero {α : Type} (call : Nat → LxOutcome α) (attempt : Nat) :
    tenacityGo call attempt 0 = (call attempt, attempt, []) := rfl

theorem tenacityGo_succ {α : Type} (call : Nat → LxOutcome α) (attempt rem : Nat) :
    tenacityGo call attempt (rem + 1) =
      (match call attempt with
        | LxOutcome.ok a => (LxOutcome.ok a, attempt, [])
        | LxOutcome.valueError _ =>
          ((tenacityGo call (attempt + 1) rem).1,
            (tenacityGo call (attempt + 1) rem).2.1,
            0 :: (tenacityGo call (attempt + 1) rem).2.2)
        | LxOutcome.otherError e => (LxOutcome.otherError e, attempt, [])) := rfl

theorem tenacityGo_succ_ok {α : Type} {call : Nat → LxOutcome α} {attempt : Nat}
    {a : α} (rem : Nat) (hc : call attempt = LxOutcome.ok a) :
    tenacityGo call attempt (rem + 1) = (LxOutcome.ok a, attempt, []) := by
  rw [tenacityGo_succ, hc]

theorem tenacityGo_succ_value {α : Type} {call : Nat → LxOutcome α} {attempt : Nat}
    {e : String} (rem : Nat) (hc : call attempt = LxOutcome.valueError e) :
    tenacityGo call attempt (rem + 1) =
      ((tenacityGo call (attempt + 1) rem).1,
        (tenacityGo call (attempt + 1) rem).2.1,
        0 :: (tenacityGo call (attempt + 1) rem).2.2) := by
  rw [tenacityGo_succ, hc]

theorem tenacityGo_succ_other {α : Type} {call : Nat → LxOutcome α} {attempt : Nat}
    {e : String} (rem : Nat) (hc : call attempt = LxOutcome.otherError e) :
    tenacityGo call attempt (rem + 1) = (LxOutcome.otherError e, attempt, []) := by
  rw [tenacityGo_succ, hc]

theorem tenacityGo_attempt_le {α : Type} (call : Nat → LxOutcome α) :
    ∀ rem attempt, attempt ≤ (tenacityGo call attempt rem).2.1 ∧
      (tenacityGo call attempt rem).2.1 ≤ attempt + rem := by
  intro rem
  induction rem with
  | zero => intro attempt; exact ⟨Nat.le_refl _, Nat.le_refl _⟩
  | succ rem ih =>
    intro attempt
    cases hc : call attempt with
    | ok a =>
      rw [tenacityGo_succ_ok rem hc]
      exact ⟨Nat.le_refl _, Nat.le_add_right _ _⟩
    | valueError e =>
      rw [tenacityGo_succ_value rem hc]
      obtain ⟨ih1, ih2⟩ := ih (attempt + 1)
      refine ⟨?_, ?_⟩
      · show attempt ≤ (tenacityGo call (attempt + 1) rem).2.1
        omega
      · show (tenacityGo call (attempt + 1) rem).2.1 ≤ attempt + (rem + 1)
        omega
    | otherError e =>
      rw [tenacityGo_succ_other rem hc]
      exact ⟨Nat.le_refl _, Nat.le_add_right _ _⟩

theorem tenacityGo_waits {α : Type} (call : Nat → LxOutcome α) :
    ∀ rem attempt, (∀ w ∈ (tenacityGo call attempt rem).2.2, w = 0) ∧
      (tenacityGo call attempt rem).2.2.length =
        (tenacityGo call attempt rem).2.1 - attempt := by
  intro rem
  induction rem with
  | zero => intro attempt; exact ⟨by simp [tenacityGo_zero], by simp [tenacityGo_zero]⟩
  | succ rem ih =>
    intro attempt
    cases hc : call attempt with
    | ok a => rw [tenacityGo_succ_ok rem hc]; exact ⟨by simp, by simp⟩
    | valueError e =>
      rw [tenacityGo_succ_value rem hc]
      obtain ⟨h1, h2⟩ := ih (attempt + 1)
      obtain ⟨h3, _⟩ := tenacityGo_attempt_le call rem (attempt + 1)
      refine ⟨?_, ?_⟩
      · intro w hw
        simp only [List.mem_cons] at hw
        rcases hw with h | h
        · exact h
        · exact h1 w h
      · show (0 :: (tenacityGo call (attempt + 1) rem).2.2).length =
          (tenacityGo call (attempt + 1) rem).2.1 - attempt
        simp only [List.length_cons, h2]
        omega
    | otherError e => rw [tenacityGo_succ_other rem hc]; exact ⟨by simp, by simp⟩

theorem tenacityGo_prior_valueError {α : Type} (call : Nat → LxOutcome α) :
    ∀ rem attempt j, attempt ≤ j → j < (tenacityGo call attempt rem).2.1 →
      ∃ e, call j = LxOutcome.valueError e := by
  intro rem
  induction rem with
  | zero =>
    intro attempt j h1 h2
    rw [tenacityGo_zero] at h2
    simp only at h2
    omega
  | succ rem ih =>
    intro attempt j h1 h2
    cases hc : call attempt with
    | ok a =>
      rw [tenacityGo_succ_ok rem hc] at h2
      simp only at h2
      omega
    | valueError e =>
      rw [tenacityGo_succ_value rem hc] at h2
      by_cases hj : j = attempt
      · exact ⟨e, hj ▸ hc⟩
      · exact ih (attempt + 1) j (by omega) h2
    | otherError e =>
      rw [tenacityGo_succ_other rem hc] at h2
      simp only at h2
      omega

/-- C6: the retry wrapper makes at most `MAX_LLM_RETRIES + 1 = 3`
invocations, waits zero seconds between attempts, re-invokes only after
a `ValueError`, propagates any other exception class immediately from
the attempt that raised it, stops on success, and after three
consecutive `ValueError`s re-raises the last one. -/
theorem run_lx_extract_with_retry_spec {α : Type} (call : Nat → LxOutcome α) :
    ((_run_lx_extract_with_retry call).2.1 ≤ MAX_LLM_RETRIES + 1) ∧
    (∀ w ∈ (_run_lx_extract_with_retry call).2.2, w = 0) ∧
    ((_run_lx_extract_with_retry call).2.2.length =
      (_run_lx_extract_with_retry call).2.1 - 1) ∧
    (∀ j, 1 ≤ j → j < (_run_lx_extract_with_retry call).2.1 →
      ∃ e, call j = .valueError e) ∧
    (∀ a, call 1 = .ok a → _run_lx_extract_with_retry call = (.ok a, 1, [])) ∧
    (∀ e, call 1 = .otherError e →
      _run_lx_extract_with_retry call = (.otherError e, 1, [])) ∧
    (∀ e₁ e, call 1 = .valueError e₁ → call 2 = .otherError e →
      _run_lx_extract_with_retry call = (.otherError e, 2, [0])) ∧
    (∀ e₁ e₂ e₃, call 1 = .valueError e₁ → call 2 = .valueError e₂ →
      call 3 = .valueError e₃ →
      _run_lx_extract_with_retry call = (.valueError e₃, 3, [0, 0])) := by
  refine ⟨?_, ?_, ?_, ?_, ?_, ?_, ?_, ?_⟩
  · exact (tenacityGo_attempt_le call MAX_LLM_RETRIES 1).2
  · exact (tenacityGo_waits call MAX_LLM_RETRIES 1).1
  · exact (tenacityGo_waits call MAX_LLM_RETRIES 1).2
  · exact fun j h1 h2 => tenacityGo_prior_valueError call MAX_LLM_RETRIES 1 j h1 h2
  · intro a h
    simp [_run_lx_extract_with_retry, MAX_LLM_RETRIES, tenacityGo, h]
  · intro e h
    simp [_run_lx_extract_with_retry, MAX_LLM_RETRIES, tenacityGo, h]
  · intro e₁ e h1 h2
    simp [_run_lx_extract_with_retry, MAX_LLM_RETRIES, tenacityGo, h1, h2]
  · intro e₁ e₂ e₃ h1 h2 h3
    simp [_run_lx_extract_with_retry, MAX_LLM_RETRIES, tenacityGo, h1, h2, h3]

/-- Witness for `run_lx_extract_with_retry_spec`: a first-attempt
`ValueError` followed by a second-attempt `TypeError`-style exception
propagates after exactly two invocations with one zero-length wait. -/
theorem run_lx_extract_with_retry_spec_witness :
    _run_lx_extract_with_retry
        (fun j => if j = 1 then LxOutcome.valueError "bad output"
          else LxOutcome.otherError "boom" : Nat → LxOutcome Nat) =
      (LxOutcome.otherError "boom", 2, [0]) :=
  (run_lx_extract_with_retry_spec
      (fun j => if j = 1 then LxOutcome.valueError "bad output"
        else LxOutcome.otherError "boom")).2.2.2.2.2.2.1
    "bad output" "boom" (by decide) (by decide)

/-! Module `app/workers/batch_task.py` — `finalize_batch` -/

/-- Python `STATUS_COMPLETED` from `app/core/constants.py`. -/
def STATUS_COMPLETED : String := "completed"

/-- Python `_FINALIZE_MAX_RETRIES`: polling attempt budget of the batch
finaliser. -/
def _FINALIZE_MAX_RETRIES : Nat := 720

/-- Python `_FINALIZE_COUNTDOWN_S`: fixed reschedule delay in seconds. -/
def _FINALIZE_COUNTDOWN_S : Nat := 5

/-- Terminal outcome of one child extraction task, as observed through
its Celery `AsyncResult`: whether it succeeded and its result (or error)
payload. -/
structure ChildOutcome where
  successful : Bool
  result : Option String
deriving DecidableEq, Repr

/-- One submitted document, as passed to `finalize_batch` for error
attribution. -/
structure BatchDocument where
  document_url : Option String
deriving DecidableEq, Repr

/-- The source identifier of a document:
`doc.get("document_url") or "<raw_text>"` with Python truthiness, so
both a missing and an empty URL fall back to the raw-text marker. -/
def docSource (doc : BatchDocument) : String :=
  match doc.document_url with
  | some u => if u = "" then "<raw_text>" else u
  | none => "<raw_text>"

/-- Python `str(child.result) if child.result else "Unknown error"` (Python
truthiness: an absent or empty payload gives the fallback message). -/
def childErrMsg (c : ChildOutcome) : String :=
  match c.result with
  | some s => if s = "" then "Unknown error" else s
  | none => "Unknown error"

/-- The aggregate dict assembled by `finalize_batch`. -/
structure BatchResult where
  status : String
  batch_id : String
  total : Nat
  successful : Nat
  failed : Nat
  results : List (Option String)
  errors : List (String × String)
  document_task_ids : List String
deriving DecidableEq, Repr

/-- The aggregation section of `finalize_batch`: iterate over
`zip(children, documents, strict=True)`, appending successful payloads
to `results` and `(source, error-message)` entries to `errors`, then
assemble the batch result with the derived counts. -/
def finalize_batch_aggregate (batch_id : String) (child_task_ids : List String)
    (children : List ChildOutcome) (documents : List BatchDocument) : BatchResult :=
  let total := child_task_ids.length
  let acc := (children.zip documents).foldl
    (fun (acc : List (Option String) × List (String × String)) cd =>
      if cd.1.successful then (acc.1 ++ [cd.1.result], acc.2)
      else (acc.1, acc.2 ++ [(docSource cd.2, childErrMsg cd.1)]))
    ([], [])
  { status := STATUS_COMPLETED
    batch_id := batch_id
    total := total
    successful := acc.1.length
    failed := acc.2.length
    results := acc.1
    errors := acc.2
    document_task_ids := child_task_ids }

theorem finalize_batch_foldl_partition (pairs : List (ChildOutcome × BatchDocument)) :
    ∀ acc : List (Option String) × List (String × String),
      pairs.foldl
        (fun (acc : List (Option String) × List (String × String)) cd =>
          if cd.1.successful then (acc.1 ++ [cd.1.result], acc.2)
          else (acc.1, acc.2 ++ [(docSource cd.2, childErrMsg cd.1)]))
        acc =
      (acc.1 ++ (pairs.filter (fun cd => cd.1.successful)).map (fun cd => cd.1.result),
        acc.2 ++ (pairs.filter (fun cd => !cd.1.successful)).map
          (fun cd => (docSource cd.2, childErrMsg cd.1))) := by
  induction pairs with
  | nil => intro acc; simp
  | cons cd rest ih =>
    intro acc
    by_cases h : cd.1.successful
    · simp [h, ih]
    · simp [h, ih]

theorem zip_filter_fst_length (p : ChildOutcome → Bool) :
    ∀ (children : List ChildOutcome) (documents : List BatchDocument),
      children.length = documents.length →
      ((children.zip documents).filter (fun cd => p cd.1)).length =
        (children.filter (fun c => p c)).length := by
  intro children
  induction children with
  | nil => intro documents _; simp
  | cons c rest ih =>
    intro documents hlen
    cases documents with
    | nil => simp at hlen
    | cons d drest =>
      simp only [List.zip_cons_cons, List.filter_cons]
      by_cases h : p c
      · simp only [h]
        simp [ih drest (by simpa using hlen)]
      · simp only [h]
        simp [ih drest (by simpa using hlen)]

/-- C7: when every child of a batch is terminal, the aggregate has
`total` equal to the number of child tasks, `successful` the number of
children that succeeded, `failed` the number that did not,
`successful + failed = total`, the status is `completed`, and the errors
list has exactly one entry per non-successful child, keyed by that
document source identifier (its URL, or the raw-text marker). -/
theorem finalize_batch_aggregate_spec (batch_id : String)
    (child_task_ids : List String) (children : List ChildOutcome)
    (documents : List BatchDocument)
    (hlen1 : children.length = child_task_ids.length)
    (hlen2 : documents.length = child_task_ids.length) :
    (finalize_batch_aggregate batch_id child_task_ids children documents).total =
      child_task_ids.length ∧
    (finalize_batch_aggregate batch_id child_task_ids children documents).successful =
      (children.filter (fun c => c.successful)).length ∧
    (finalize_batch_aggregate batch_id child_task_ids children documents).failed =
      (children.filter (fun c => !c.successful)).length ∧
    (finalize_batch_aggregate batch_id child_task_ids children documents).successful +
        (finalize_batch_aggregate batch_id child_task_ids children documents).failed =
      (finalize_batch_aggregate batch_id child_task_ids children documents).total ∧
    (finalize_batch_aggregate batch_id child_task_ids children documents).status =
      STATUS_COMPLETED ∧
    (finalize_batch_aggregate batch_id child_task_ids children documents).errors =
      ((children.zip documents).filter (fun cd => !cd.1.successful)).map
        (fun cd => (docSource cd.2, childErrMsg cd.1)) := by
  have hzip : children.length = documents.length := by omega
  have hkey := finalize_batch_foldl_partition (children.zip documents) ([], [])
  have hsucc : (finalize_batch_aggregate batch_id child_task_ids children
      documents).successful = (children.filter (fun c => c.successful)).length := by
    simp only [finalize_batch_aggregate, hkey]
    simp only [List.nil_append, List.length_map]
    exact zip_filter_fst_length (fun c => c.successful) children documents hzip
  have hfail : (finalize_batch_aggregate batch_id child_task_ids children
      documents).failed = (children.filter (fun c => !c.successful)).length := by
    simp only [finalize_batch_aggregate, hkey]
    simp only [List.nil_append, List.length_map]
    exact zip_filter_fst_length (fun c => !c.successful) children documents hzip
  refine ⟨rfl, hsucc, hfail, ?_, rfl, ?_⟩
  · rw [hsucc, hfail]
    have hcount := List.length_eq_countP_add_countP (fun c => c.successful) children
    rw [List.countP_eq_length_filter, List.countP_eq_length_filter] at hcount
    have : (finalize_batch_aggregate batch_id child_task_ids children documents).total =
        child_task_ids.length := rfl
    rw [this, ← hlen1, hcount]
    have hpred : (List.filter (fun c => !c.successful) children) =
        (List.filter (fun a => decide ¬(a.successful = true)) children) :=
      List.filter_congr (fun c _ => by cases hc : c.successful <;> simp [hc])
    rw [hpred]
  · simp only [finalize_batch_aggregate, hkey]
    simp

/-- Witness for `finalize_batch_aggregate_spec`: a five-document batch
whose third document fails yields total 5, successful 4, failed 1 and a
single error entry attributed to the third document source. -/
theorem finalize_batch_aggregate_spec_witness :
    (finalize_batch_aggregate "batch-1" ["t1", "t2", "t3", "t4", "t5"]
        [⟨true, some "r1"⟩, ⟨true, some "r2"⟩, ⟨false, some "boom"⟩,
          ⟨true, some "r4"⟩, ⟨true, some "r5"⟩]
        [⟨some "https://example.com/1.txt"⟩, ⟨some "https://example.com/2.txt"⟩,
          ⟨some "https://example.com/3.txt"⟩, ⟨some "https://example.com/4.txt"⟩,
          ⟨none⟩]).total = 5 ∧
    (finalize_batch_aggregate "batch-1" ["t1", "t2", "t3", "t4", "t5"]
        [⟨true, some "r1"⟩, ⟨true, some "r2"⟩, ⟨false, some "boom"⟩,
          ⟨true, some "r4"⟩, ⟨true, some "r5"⟩]
        [⟨some "https://example.com/1.txt"⟩, ⟨some "https://example.com/2.txt"⟩,
          ⟨some "https://example.com/3.txt"⟩, ⟨some "https://example.com/4.txt"⟩,
          ⟨none⟩]).successful = 4 ∧
    (finalize_batch_aggregate "batch-1" ["t1", "t2", "t3", "t4", "t5"]
        [⟨true, some "r1"⟩, ⟨true, some "r2"⟩, ⟨false, some "boom"⟩,
          ⟨true, some "r4"⟩, ⟨true, some "r5"⟩]
        [⟨some "https://example.com/1.txt"⟩, ⟨some "https://example.com/2.txt"⟩,
          ⟨some "https://example.com/3.txt"⟩, ⟨some "https://example.com/4.txt"⟩,
          ⟨none⟩]).failed = 1 ∧
    (finalize_batch_aggregate "batch-1" ["t1", "t2", "t3", "t4", "t5"]
        [⟨true, some "r1"⟩, ⟨true, some "r2"⟩, ⟨false, some "boom"⟩,
          ⟨true, some "r4"⟩, ⟨true, some "r5"⟩]
        [⟨some "https://example.com/1.txt"⟩, ⟨some "https://example.com/2.txt"⟩,
          ⟨some "https://example.com/3.txt"⟩, ⟨some "https://example.com/4.txt"⟩,
          ⟨none⟩]).errors = [("https://example.com/3.txt", "boom")] := by
  have h := finalize_batch_aggregate_spec "batch-1" ["t1", "t2", "t3", "t4", "t5"]
    [⟨true, some "r1"⟩, ⟨true, some "r2"⟩, ⟨false, some "boom"⟩,
      ⟨true, some "r4"⟩, ⟨true, some "r5"⟩]
    [⟨some "https://example.com/1.txt"⟩, ⟨some "https://example.com/2.txt"⟩,
      ⟨some "https://example.com/3.txt"⟩, ⟨some "https://example.com/4.txt"⟩,
      ⟨none⟩] (by decide) (by decide)
  exact ⟨h.1.trans (by decide), h.2.1.trans (by decide),
    h.2.2.1.trans (by decide), h.2.2.2.2.2.trans (by decide)⟩

/-! Section: The polling loop of `finalize_batch` -/

/-- Trace of the self-rescheduling polling phase of `finalize_batch`:
the `(total, completed)` progress reports issued while children were
pending, the reschedule countdowns requested, and whether the attempt
budget ran out before all children were terminal. -/
structure PollTrace where
  reports : List (Nat × Nat)
  countdowns : List Nat
  exhausted : Bool
deriving DecidableEq, Repr

/-- Polling control flow of `finalize_batch`, driven by the external
execution state: `ready r` says whether all children are terminal when
the task runs with retry counter `r`, and `completed r` how many are.
While children are pending the task reports progress and, if retries
remain (`retries < max_retries`), re-raises itself with the fixed
5-second countdown; once the budget is exhausted it logs the timeout and
falls through to aggregation with whatever is terminal. -/
def finalize_batch_poll (ready : Nat → Bool) (completed : Nat → Nat) (total : Nat) :
    Nat → Nat → PollTrace
  | r, 0 =>
    if ready r then ⟨[], [], false⟩
    else ⟨[(total, completed r)], [], true⟩
  | r, rem + 1 =>
    if ready r then ⟨[], [], false⟩
    else
      let rest := finalize_batch_poll ready completed total (r + 1) rem
      ⟨(total, completed r) :: rest.reports,
        _FINALIZE_COUNTDOWN_S :: rest.countdowns, rest.exhausted⟩

/-- One full polling run of `finalize_batch`, starting at retry counter
`0` with the `_FINALIZE_MAX_RETRIES` attempt budget. -/
def finalize_batch_run (ready : Nat → Bool) (completed : Nat → Nat) (total : Nat) :
    PollTrace :=
  finalize_batch_poll ready completed total 0 _FINALIZE_MAX_RETRIES

theorem finalize_batch_poll_succ_pending {ready : Nat → Bool} {completed : Nat → Nat}
    {total r : Nat} (rem : Nat) (h : ¬ ready r = true) :
    finalize_batch_poll ready completed total r (rem + 1) =
      ⟨(total, completed r) ::
          (finalize_batch_poll ready completed total (r + 1) rem).reports,
        _FINALIZE_COUNTDOWN_S ::
          (finalize_batch_poll ready completed total (r + 1) rem).countdowns,
        (finalize_batch_poll ready completed total (r + 1) rem).exhausted⟩ := by
  simp [finalize_batch_poll, h]

theorem finalize_batch_poll_countdowns (ready : Nat → Bool) (completed : Nat → Nat)
    (total : Nat) :
    ∀ rem r, (finalize_batch_poll ready completed total r rem).countdowns.length ≤ rem ∧
      (∀ c ∈ (finalize_batch_poll ready completed total r rem).countdowns,
        c = _FINALIZE_COUNTDOWN_S) := by
  intro rem
  induction rem with
  | zero =>
    intro r
    by_cases h : ready r
    · simp [finalize_batch_poll, h]
    · simp [finalize_batch_poll, h]
  | succ rem ih =>
    intro r
    by_cases h : ready r
    · simp [finalize_batch_poll, h]
    · obtain ⟨ih1, ih2⟩ := ih (r + 1)
      rw [finalize_batch_poll_succ_pending rem h]
      refine ⟨?_, ?_⟩
      · show (_FINALIZE_COUNTDOWN_S ::
            (finalize_batch_poll ready completed total (r + 1) rem).countdowns).length ≤
          rem + 1
        simp only [List.length_cons]
        omega
      · intro c hc
        simp only [List.mem_cons] at hc
        rcases hc with hcc | hcc
        · exact hcc
        · exact ih2 c hcc

theorem finalize_batch_poll_reports (ready : Nat → Bool) (completed : Nat → Nat)
    (total : Nat) :
    ∀ rem r, (finalize_batch_poll ready completed total r rem).reports =
      (List.range (finalize_batch_poll ready completed total r rem).reports.length).map
        (fun i => (total, completed (r + i))) ∧
      (finalize_batch_poll ready completed total r rem).reports.length ≤ rem + 1 := by
  intro rem
  induction rem with
  | zero =>
    intro r
    by_cases h : ready r
    · simp [finalize_batch_poll, h]
    · simp [finalize_batch_poll, h, List.range_succ]
  | succ rem ih =>
    intro r
    by_cases h : ready r
    · simp [finalize_batch_poll, h]
    · obtain ⟨ih1, ih2⟩ := ih (r + 1)
      rw [finalize_batch_poll_succ_pending rem h]
      refine ⟨?_, ?_⟩
      · show (total, completed r) ::
            (finalize_batch_poll ready completed total (r + 1) rem).reports =
          (List.range ((total, completed r) ::
            (finalize_batch_poll ready completed total (r + 1) rem).reports).length).map
            (fun i => (total, completed (r + i)))
        rw [List.length_cons, List.range_succ_eq_map, List.map_cons, List.map_map]
        congr 1
        rw [ih1]
        simp only [List.length_map, List.length_range]
        apply List.map_congr_left
        intro i _
        simp only [Function.comp]
        have hidx : r + 1 + i = r + (i + 1) := by omega
        rw [hidx]
      · show ((total, completed r) ::
            (finalize_batch_poll ready completed total (r + 1) rem).reports).length ≤
          rem + 1 + 1
        simp only [List.length_cons]
        omega

/-- C8: whenever some child is pending, the batch coordinator reports
progress as `(total, completed-so-far)` for consecutive retry counters,
reschedules itself with the fixed 5-second countdown at most 720 times,
terminates within the attempt bound (at most 721 poll executions), and
in all cases — budget exhausted or not — proceeds to an aggregate whose
status is `completed` rather than a failure. -/
theorem finalize_batch_poll_spec (ready : Nat → Bool) (completed : Nat → Nat)
    (total : Nat) :
    (finalize_batch_run ready completed total).countdowns.length ≤
      _FINALIZE_MAX_RETRIES ∧
    (∀ c ∈ (finalize_batch_run ready completed total).countdowns,
      c = _FINALIZE_COUNTDOWN_S) ∧
    (finalize_batch_run ready completed total).reports =
      (List.range (finalize_batch_run ready completed total).reports.length).map
        (fun i => (total, completed i)) ∧
    (finalize_batch_run ready completed total).reports.length ≤
      _FINALIZE_MAX_RETRIES + 1 ∧
    (∀ batch_id child_task_ids children documents,
      (finalize_batch_aggregate batch_id child_task_ids children documents).status =
        STATUS_COMPLETED) := by
  obtain ⟨h1, h2⟩ := finalize_batch_poll_countdowns ready completed total
    _FINALIZE_MAX_RETRIES 0
  obtain ⟨h3, h4⟩ := finalize_batch_poll_reports ready completed total
    _FINALIZE_MAX_RETRIES 0
  refine ⟨h1, h2, ?_, h4, fun _ _ _ _ => rfl⟩
  rw [show finalize_batch_run ready completed total =
    finalize_batch_poll ready completed total 0 _FINALIZE_MAX_RETRIES from rfl]
  rw [h3]
  simp only [List.length_map, List.length_range]
  apply List.map_congr_left
  intro i _
  rw [Nat.zero_add]

/-- Witness for `finalize_batch_poll_spec`: with children all terminal
from the third poll on, the coordinator reschedules twice with 5-second
countdowns and stops. -/
theorem finalize_batch_poll_spec_witness :
    (finalize_batch_run (fun r => decide (2 ≤ r)) (fun r => r) 5).countdowns.length ≤
      _FINALIZE_MAX_RETRIES ∧
    (finalize_batch_run (fun r => decide (2 ≤ r)) (fun r => r) 5).countdowns = [5, 5] ∧
    (finalize_batch_run (fun r => decide (2 ≤ r)) (fun r => r) 5).reports =
      [(5, 0), (5, 1)] ∧
    5 = _FINALIZE_COUNTDOWN_S :=
  ⟨(finalize_batch_poll_spec (fun r => decide (2 ≤ r)) (fun r => r) 5).1,
    by decide, by decide,
    (finalize_batch_poll_spec (fun r => decide (2 ≤ r)) (fun r => r) 5).2.1 5
      (by decide)⟩

/-! Module `app/api/routes/extract.py` — `submit_extraction`

The Redis idempotency store is modelled as the association list of its
currently unexpired entries (`idempotency:{key}` ↦ task id), so a lookup
hit is exactly a prior submission within the TTL window; the Celery
queue as the ordered list of dispatched tasks; and Celery task-id
generation as a fresh-name counter. -/

/-- The fields of an `ExtractionRequest` relevant to submission:
the optional idempotency key and the remaining payload (document url,
provider, passes, config, callbacks), opaque to the idempotency logic. -/
structure SubmitRequest where
  idempotency_key : Option String
  payload : String
deriving DecidableEq, Repr

/-- Python `TaskSubmitResponse` (task id and status). -/
structure TaskSubmitResponse where
  task_id : String
  status : String
deriving DecidableEq, Repr

/-- Python `STATUS_SUBMITTED` from `app/core/constants.py`. -/
def STATUS_SUBMITTED : String := "submitted"

/-- Server-side state observed by `submit_extraction`. -/
structure GatewayState where
  idem : List (String × String)
  dispatched : List (String × String)
  nextId : Nat
deriving DecidableEq, Repr

/-- Fresh Celery task ids, backed by a counter; always non-empty. -/
def freshTaskId (n : Nat) : String := "task-" ++ pyStrNat n

/-- The dispatch path of `submit_extraction`: send the task
(`extract_document.delay`), then store the idempotency mapping with the
configured TTL when a (truthy) key was supplied. -/
def submit_dispatch (st : GatewayState) (req : SubmitRequest) :
    GatewayState × TaskSubmitResponse :=
  let tid := freshTaskId st.nextId
  ({ idem :=
        match req.idempotency_key with
        | some k =>
          if k ≠ "" then pyDictInsert st.idem ("idempotency:" ++ k) tid else st.idem
        | none => st.idem
     dispatched := st.dispatched ++ [(tid, req.payload)]
     nextId := st.nextId + 1 },
    ⟨tid, STATUS_SUBMITTED⟩)

/-- Python `submit_extraction`: when a (truthy) idempotency key is supplied and
the Redis lookup returns a (truthy) existing task id, answer with that
id and dispatch nothing; otherwise dispatch a new task and record the
mapping. -/
def submit_extraction (st : GatewayState) (req : SubmitRequest) :
    GatewayState × TaskSubmitResponse :=
  match req.idempotency_key with
  | some k =>
    if k ≠ "" then
      match pyDictGet st.idem ("idempotency:" ++ k) with
      | some existing_task_id =>
        if existing_task_id ≠ "" then (st, ⟨existing_task_id, STATUS_SUBMITTED⟩)
        else submit_dispatch st req
      | none => submit_dispatch st req
    else submit_dispatch st req
  | none => submit_dispatch st req

theorem freshTaskId_ne_empty (n : Nat) : freshTaskId n ≠ "" := by
  intro h
  have hlen := congrArg String.length h
  unfold freshTaskId at hlen
  rw [String.length_append] at hlen
  have h5 : ("task-" : String).length = 5 := rfl
  have h0 : ("" : String).length = 0 := rfl
  omega

theorem pyDictGet_insert (d : List (String × String)) (k v : String) :
    pyDictGet (pyDictInsert d k v) k = some v := by
  unfold pyDictInsert
  by_cases h : d.any (fun p => p.1 = k)
  · rw [if_pos h]
    induction d with
    | nil => simp at h
    | cons p rest ih =>
      by_cases hp : p.1 = k
      · simp [pyDictGet, List.find?, hp]
      · have hrest : rest.any (fun q => q.1 = k) := by
          simp only [List.any_cons, Bool.or_eq_true, decide_eq_true_eq] at h
          rcases h with h | h
          · exact absurd h hp
          · exact h
        simp only [List.map_cons, if_neg hp]
        rw [pyDictGet] at ih ⊢
        simp only [List.find?]
        rw [show (decide (p.1 = k)) = false from by simp [hp]]
        exact ih hrest
  · rw [if_neg h]
    induction d with
    | nil => simp [pyDictGet, List.find?]
    | cons p rest ih =>
      have hp : ¬ p.1 = k := by
        intro hc
        exact h (by simp [List.any_cons, hc])
      have hrest : ¬ rest.any (fun q => q.1 = k) := by
        intro hc
        exact h (by simp [List.any_cons, hc])
      rw [pyDictGet] at ih ⊢
      simp only [List.cons_append, List.find?]
      rw [show (decide (p.1 = k)) = false from by simp [hp]]
      exact ih hrest

/-- C3: a resubmission whose idempotency key is found in the store (a
prior submission within the TTL window) returns the original task id
and leaves the state untouched — no new task is dispatched; and two
successive submissions with the same fresh key return the same task id
while creating exactly one task in total. -/
theorem submit_extraction_idempotent (st : GatewayState) (req : SubmitRequest)
    (k : String) (hk : req.idempotency_key = some k) (hk2 : k ≠ "") :
    (∀ tid, pyDictGet st.idem ("idempotency:" ++ k) = some tid → tid ≠ "" →
      submit_extraction st req = (st, ⟨tid, STATUS_SUBMITTED⟩)) ∧
    (pyDictGet st.idem ("idempotency:" ++ k) = none →
      (submit_extraction (submit_extraction st req).1 req).2.task_id =
        (submit_extraction st req).2.task_id ∧
      (submit_extraction (submit_extraction st req).1 req).1.dispatched =
        (submit_extraction st req).1.dispatched ∧
      (submit_extraction st req).1.dispatched.length = st.dispatched.length + 1) := by
  constructor
  · intro tid hhit htid
    unfold submit_extraction
    rw [hk]
    simp only [if_pos hk2, hhit, if_pos htid]
  · intro hmiss
    have hfirst : submit_extraction st req = submit_dispatch st req := by
      unfold submit_extraction
      rw [hk]
      simp only [if_pos hk2, hmiss]
    have hidem1 : (submit_dispatch st req).1.idem =
        pyDictInsert st.idem ("idempotency:" ++ k) (freshTaskId st.nextId) := by
      unfold submit_dispatch
      rw [hk]
      simp only [if_pos hk2]
    have hsecond : submit_extraction (submit_dispatch st req).1 req =
        ((submit_dispatch st req).1, ⟨freshTaskId st.nextId, STATUS_SUBMITTED⟩) := by
      unfold submit_extraction
      rw [hk]
      simp only [if_pos hk2, hidem1, pyDictGet_insert,
        if_pos (freshTaskId_ne_empty st.nextId)]
    rw [hfirst, hsecond]
    refine ⟨rfl, rfl, ?_⟩
    unfold submit_dispatch
    simp

/-- Witness for `submit_extraction_idempotent`: from an empty state, two
submissions with idempotency key `abc` yield the same task id and a
single dispatched task. -/
theorem submit_extraction_idempotent_witness :
    (submit_extraction
        (submit_extraction ⟨[], [], 0⟩ ⟨some "abc", "doc"⟩).1
        ⟨some "abc", "doc"⟩).2.task_id =
      (submit_extraction ⟨[], [], 0⟩ ⟨some "abc", "doc"⟩).2.task_id ∧
    (submit_extraction ⟨[], [], 0⟩ ⟨some "abc", "doc"⟩).1.dispatched.length = 1 :=
  ⟨((submit_extraction_idempotent ⟨[], [], 0⟩ ⟨some "abc", "doc"⟩ "abc" rfl
      (by decide)).2 rfl).1,
    ((submit_extraction_idempotent ⟨[], [], 0⟩ ⟨some "abc", "doc"⟩ "abc" rfl
      (by decide)).2 rfl).2.2⟩

end LangextractApi
